import Mathlib

/-!
# mt-retention-migration: routing, rollup tasks, inserts and query windows

A shallow embedding of `cmd/mt-retention-migration/main.go`.

* Machine integers: `uint32` values are natural numbers reduced modulo `2^32`
  at every operation that can wrap; `int64` values are integers, and the Go
  quotient `/` on them is `Int.tdiv` (it truncates toward zero).
* The channel `chunkChan` is the list of the tasks sent on it, oldest first.
* A run-time panic (index out of range, nil dereference) is the result `none`.
* Packages that are imported by the file but are not part of it (the chunk
  codec, the aggregation engine, the storage driver, `mdata.Month_sec`, the
  verb `%q` of `fmt`) are parameters of the functions that use them.
* `time.Now().Unix()` is the parameter `now`. Every int64 operation of
  `processMetric` is reduced to the int64 range with `wrap64`.
* A loop whose number of iterations is not bounded by a list is given a
  number of iterations; running out of them is the result `none`.
* The producer and the consumer run one after the other: `write` is run on
  the tasks that were sent, in the order of sending.
-/

set_option autoImplicit false

namespace Migration

/-! ## Machine arithmetic -/

/-- The modulus of the Go type uint32. -/
def wrap32 : Nat := 4294967296

/-- Conversion `uint32(x)` of an int64 value. -/
def toUint32 (x : Int) : Nat := (x % (wrap32 : Int)).toNat

/-- Subtraction `a - b` of two uint32 values. -/
def sub32 (a b : Nat) : Nat := (a + wrap32 - b % wrap32) % wrap32

/-- Addition `a + b` of two uint32 values. -/
def add32 (a b : Nat) : Nat := (a + b) % wrap32

/-- The package variable `day_sec` (line 25). -/
def day_sec : Int := 60 * 60 * 24

/-! ## Data model -/

/-- Modelled from the spec: the type `chunk.IterGen`, a chunk record made of a
byte payload `B` (returned by `Bytes()`), a start timestamp `Ts` and a span
`Span`, both uint32. The Go zero value is `⟨[], 0, 0⟩`. -/
structure IterGen where
  B : List Nat
  Ts : Nat
  Span : Nat
deriving DecidableEq

/-- One sample `(ts, val)` as returned by `iter.Values()`; `val` is the bit
pattern of the float64 value, which the program only passes on. -/
structure Point where
  ts : Nat
  val : Nat
deriving DecidableEq

/-- Modelled from the spec: the fields of `chunk.Chunk` that the program
reads: the `Closed` flag, the start `T0`, the last timestamp `LastTs`
(uint32) and the bytes of the series encoded so far. -/
structure Chunk where
  Closed : Bool
  T0 : Nat
  LastTs : Nat
  Series : List Nat
deriving DecidableEq

/-- Modelled from the spec: an entry of `mdata.TTLTables`, of which the
program reads the table name only. -/
structure TTLTable where
  Table : String
deriving DecidableEq

/-- The fields of `schema.MetricDefinition` that the program reads. -/
structure MetricDefinition where
  Id : String
  Interval : Int
deriving DecidableEq

/-- The struct `chunkDay` (lines 38-43): one write task. -/
structure chunkDay where
  tableName : String
  id : String
  ttl : Nat
  itergens : List IterGen
deriving DecidableEq

/-- Arguments of `conf.NewRetentionMT`, in the order of the call. -/
structure Retention where
  SecondsPerPoint : Nat
  TTL : Nat
  ChunkSpan : Nat
  NumChunks : Nat
  Ready : Bool
deriving DecidableEq

/-- The constants `conf.Avg`, `conf.Lst`, `conf.Max`, `conf.Min`. -/
inductive Method where
  | Avg
  | Lst
  | Max
  | Min
deriving DecidableEq

/-- The struct literal `conf.Aggregation` of lines 184-190; the x-files
factor 0.5 is kept as the fraction `XFilesNum / XFilesDen`. -/
structure Aggregation where
  Name : String
  Pattern : String
  XFilesNum : Nat
  XFilesDen : Nat
  AggregationMethod : List Method
deriving DecidableEq

/-- Modelled from the spec: the chunk codec (package `chunk`), which is not
part of the file. `Get` returns the pair `(iter, err)` of `itgen.Get()`: the
samples that `iter.Next()` and `iter.Values()` walk through, or `none` for a
nil iterator, and the error, if any. `Finish` seals a chunk, `Bytes` is its
byte payload, and `PrepareChunkData` is `mdata.PrepareChunkData`. -/
structure ChunkCodec where
  Get : IterGen → Option (List Point) × Option String
  Finish : Chunk → Chunk
  Bytes : Chunk → List Nat
  PrepareChunkData : Nat → List Nat → List Nat

/-- Modelled from the spec: the aggregation engine (`mdata.AggMetric` and its
aggregators), which is not part of the file. `AM` is the state of an
`AggMetric`, `Agg` the state of an aggregator. -/
structure AggEngine (AM Agg : Type) where
  NewAggMetric : String → List Retention → Aggregation → Bool → AM
  Add : AM → Nat → Nat → AM
  Chunks : AM → List Chunk
  Key : AM → String
  GetAggregators : AM → List Agg
  GetAggMetrics : Agg → List AM

/-- One executed statement `m.session.Query(query, rowKey, ts, data).Exec()`
of `insertChunks`. -/
structure Insert where
  query : String
  rowKey : String
  ts : Nat
  data : List Nat
deriving DecidableEq

/-- The struct `migrater` (lines 27-36). `chunkChan` holds the tasks sent on
the channel, oldest first; `session` holds the insert statements executed on
the session so far; `stderr` holds what `throwError` has written.
`engineBuilt` is not a field of the Go struct: it records whether the last
call of `generateChunks` built an aggregation engine (its local `am`). -/
structure migrater where
  chunkChan : List chunkDay
  metricCount : Nat
  readChunkCount : Nat
  writeChunkCount : Nat
  ttlTables : Nat → TTLTable
  ttls : List Nat
  session : List Insert
  stderr : List String
  engineBuilt : Bool

/-- The function `throwError` (lines 266-271; the name is a Lean keyword),
as a function on the error stream: it appends a newline to the message and
prints the result with `Fprintln`. It returns to its caller: there is no
exit and no panic in it. -/
def throwError_ (stderr : List String) (msg : String) : List String :=
  stderr ++ [msg ++ "\n" ++ "\n"]

/-! ## generateChunks -/

/-- Line 169: `dropBefore := now - 60*60*24*60`, on uint32. -/
def dropBefore (now : Int) : Nat := sub32 (toUint32 now) (60 * 60 * 24 * 60)

/-- Line 171: `noRawBefore := now - 60*60*24`, on uint32. -/
def noRawBefore (now : Int) : Nat := sub32 (toUint32 now) (60 * 60 * 24)

/-- Lines 175-192: the engine built for the series `d`, with one retention
of one minute per point and the four methods. -/
def newAggMetric {AM Agg : Type} (E : AggEngine AM Agg) (d : MetricDefinition) (ttl1 : Nat) : AM :=
  let outChunkSpan : Nat := 6 * 60 * 60
  E.NewAggMetric d.Id
    [{ SecondsPerPoint := 60, TTL := ttl1, ChunkSpan := outChunkSpan, NumChunks := 2,
       Ready := true }]
    { Name := "default", Pattern := ".*", XFilesNum := 1, XFilesDen := 2,
      AggregationMethod := [Method.Avg, Method.Lst, Method.Max, Method.Min] }
    false

/-- Lines 204-207: every sample of one chunk is added to the engine. -/
def addPoints {AM Agg : Type} (E : AggEngine AM Agg) (am : AM) : List Point → AM
  | [] => am
  | p :: rest => addPoints E (E.Add am p.ts p.val) rest

/-- Lines 194-208: the loop over the raw chunks, on the error stream and the
engine. A chunk that starts before the bound `drop` is skipped. For the
others `Get` is called; an error is reported with `throwError`, which
returns, and the loop `for iter.Next()` then runs on the returned iterator:
a nil iterator is a panic. -/
def feedChunks {AM Agg : Type} (E : AggEngine AM Agg) (C : ChunkCodec) (d : MetricDefinition)
    (drop : Nat) : List String → AM → List IterGen → Option (List String × AM)
  | stderr, am, [] => some (stderr, am)
  | stderr, am, itgen :: rest =>
    if itgen.Ts < drop then
      feedChunks E C d drop stderr am rest
    else
      let r := C.Get itgen
      let stderr1 := match r.2 with
        | some _ => throwError_ stderr ("Corrupt chunk " ++ d.Id ++ " at ts " ++ toString itgen.Ts)
        | none => stderr
      match r.1 with
      | none => none
      | some pts => feedChunks E C d drop stderr1 (addPoints E am pts) rest

/-- Lines 214-221: one aggregate chunk is sealed when it is still open, and
turned into a record with `chunk.NewBareIterGen`. -/
def bareIterGen (C : ChunkCodec) (c : Chunk) : IterGen :=
  let c1 := if !c.Closed then C.Finish c else c
  { B := C.Bytes c1, Ts := c1.T0, Span := sub32 c1.LastTs c1.T0 }

/-- Lines 213-222: the loop that appends one record per chunk of the
aggregate series to `itgensNew`. -/
def appendChunks (C : ChunkCodec) : List IterGen → List Chunk → List IterGen
  | acc, [] => acc
  | acc, c :: rest => appendChunks C (acc ++ [bareIterGen C c]) rest

/-- Lines 212-222: `itgensNew` starts as `make([]chunk.IterGen, n)`, a slice
of `n` zero records with `n = len(am.Chunks)`, and the records of the
aggregate series are appended to it. -/
def itgensNew (C : ChunkCodec) (n : Nat) (chunks : List Chunk) : List IterGen :=
  appendChunks C (List.replicate n ({ B := [], Ts := 0, Span := 0 } : IterGen)) chunks

/-- Lines 224-229: the task built for one aggregate series. -/
def rollupChunkDay {AM Agg : Type} (E : AggEngine AM Agg) (C : ChunkCodec) (m : migrater)
    (ttl1 : Nat) (am aggMetric : AM) : chunkDay :=
  { ttl := ttl1,
    tableName := (m.ttlTables ttl1).Table,
    id := E.Key aggMetric,
    itergens := itgensNew C (E.Chunks am).length (E.Chunks aggMetric) }

/-- Lines 211-231: the inner loop over the aggregate series of one
aggregator; each task is sent on the channel. -/
def sendAggMetrics {AM Agg : Type} (E : AggEngine AM Agg) (C : ChunkCodec) (ttl1 : Nat) (am : AM) :
    migrater → List AM → migrater
  | m, [] => m
  | m, aggMetric :: rest =>
    sendAggMetrics E C ttl1 am
      { m with chunkChan := m.chunkChan ++ [rollupChunkDay E C m ttl1 am aggMetric] } rest

/-- Lines 210-232: the outer loop over the aggregators. -/
def sendAggregators {AM Agg : Type} (E : AggEngine AM Agg) (C : ChunkCodec) (ttl1 : Nat) (am : AM) :
    migrater → List Agg → migrater
  | m, [] => m
  | m, agg :: rest =>
    sendAggregators E C ttl1 am (sendAggMetrics E C ttl1 am m (E.GetAggMetrics agg)) rest

/-- Lines 235-239: the loop over `cd.itergens` compares the end of each chunk
with `noRawBefore` and executes `continue`; there is no other statement in
its body. -/
def rawLoop (noRawBefore : Nat) (cd : chunkDay) : List IterGen → chunkDay
  | [] => cd
  | itgen :: rest =>
    if add32 itgen.Ts itgen.Span < noRawBefore then rawLoop noRawBefore cd rest
    else rawLoop noRawBefore cd rest

/-- Lines 174-233: the block that builds the one-minute rollups. -/
def rollups {AM Agg : Type} (E : AggEngine AM Agg) (C : ChunkCodec) (drop : Nat)
    (m : migrater) (itgens : List IterGen) (d : MetricDefinition) : Option migrater :=
  match m.ttls[1]? with
  | none => none
  | some ttl1 =>
    match feedChunks E C d drop m.stderr (newAggMetric E d ttl1) itgens with
    | none => none
    | some (stderr1, am) =>
      some (sendAggregators E C ttl1 am { m with stderr := stderr1, engineBuilt := true }
        (E.GetAggregators am))

/-- The method `generateChunks` (lines 150-241); `now` is the value of
`time.Now().Unix()` read at line 167. -/
def generateChunks {AM Agg : Type} (E : AggEngine AM Agg) (C : ChunkCodec) (now : Int)
    (m : migrater) (itgens : List IterGen) (d : MetricDefinition) : Option migrater :=
  let cd : chunkDay := { tableName := "", id := "", ttl := 0, itergens := itgens }
  let m0 := { m with readChunkCount := m.readChunkCount + itgens.length, engineBuilt := false }
  if d.Interval > 60 * 30 then
    match m0.ttls[2]? with
    | none => none
    | some ttl2 =>
      let cd1 := { cd with ttl := ttl2, tableName := (m0.ttlTables ttl2).Table, id := d.Id }
      some { m0 with chunkChan := m0.chunkChan ++ [cd1] }
  else
    let r := if d.Interval < 60 then rollups E C (dropBefore now) m0 itgens d else some m0
    match r with
    | none => none
    | some m1 =>
      some { m1 with chunkChan := m1.chunkChan ++ [rawLoop (noRawBefore now) cd cd.itergens] }

/-! ## write and insertChunks -/

/-- Lines 256-259: the statement that `insertChunks` builds for one record:
the query text with the table and the ttl, the row key `id_bucket` with
`bucket = ig.Ts / mdata.Month_sec` (a quotient of uint32 values), the start
of the record, and the payload behind its header. -/
def insertStmt (Month_sec : Nat) (C : ChunkCodec) (table id : String) (ttl : Nat)
    (ig : IterGen) : Insert :=
  { query := "INSERT INTO " ++ table ++ " (key, ts, data) values (?,?,?) USING TTL " ++ toString ttl,
    rowKey := id ++ "_" ++ toString (ig.Ts / Month_sec),
    ts := ig.Ts,
    data := C.PrepareChunkData ig.Span ig.B }

/-- The method `insertChunks` (lines 255-264). `Month_sec` is the constant
`mdata.Month_sec`. `exec` is the storage driver: given the statements
executed so far and the next one, it answers with the error of `Exec()`, if
any. `fmtQ` is the rendering of an error by the verb `%q` of the package
`fmt`. An error is reported with `throwError`, which returns, and the loop
goes on with the next record. -/
def insertChunks (Month_sec : Nat) (C : ChunkCodec) (fmtQ : String → String)
    (exec : List Insert → Insert → Option String)
    (table id : String) (ttl : Nat) : migrater → List IterGen → migrater
  | m, [] => m
  | m, ig :: rest =>
    let ins := insertStmt Month_sec C table id ttl ig
    let m1 := { m with session := m.session ++ [ins] }
    let m2 := match exec m.session ins with
      | some err =>
        { m1 with stderr := throwError_ m1.stderr ("Error in query: " ++ fmtQ err) }
      | none => m1
    insertChunks Month_sec C fmtQ exec table id ttl m2 rest

/-- The loop of `write` (lines 244-252) over the tasks still to be received;
when the channel is closed and drained the method returns. -/
def writeLoop (Month_sec : Nat) (C : ChunkCodec) (fmtQ : String → String)
    (exec : List Insert → Insert → Option String) : migrater → List chunkDay → migrater
  | m, [] => m
  | m, chunk :: rest =>
    let m1 := insertChunks Month_sec C fmtQ exec chunk.tableName chunk.id chunk.ttl m chunk.itergens
    writeLoop Month_sec C fmtQ exec { m1 with writeChunkCount := m1.writeChunkCount + 1 } rest

/-- The method `write` (lines 243-253), run on the tasks that were sent on
the channel before it was closed, in the order of sending. -/
def write (Month_sec : Nat) (C : ChunkCodec) (fmtQ : String → String)
    (exec : List Insert → Insert → Option String) (m : migrater) : migrater :=
  writeLoop Month_sec C fmtQ exec { m with chunkChan := [] } m.chunkChan

/-- What the error stream receives when the statements `stmts` are executed
in order on a session that has executed `hist`: for every statement to which
the driver answers with an error, in order, the text that `throwError`
prints for the message of line 261. -/
def failureLines (fmtQ : String → String) (exec : List Insert → Insert → Option String)
    (hist stmts : List Insert) : List String :=
  (List.range stmts.length).filterMap (fun k =>
    (stmts[k]?).bind (fun ins =>
      (exec (hist ++ stmts.take k) ins).map (fun err =>
        "Error in query: " ++ fmtQ err ++ "\n" ++ "\n")))

/-! ## processMetric: the queries of one series -/

/-- One call `m.session.Query(query, row_key, from, to)` of line 120. The
field `month` is the loop variable from which `row_key` was formatted. -/
structure Query where
  row_key : String
  month : Int
  from_ : Int
  to_ : Int
deriving DecidableEq

/-- The result of an int64 operation whose exact value is `x`: the value is
reduced to the range from `-2^63` to `2^63 - 1`, as Go does on overflow. -/
def wrap64 (x : Int) : Int := (x + 9223372036854775808) % 18446744073709551616 - 9223372036854775808

/-- Line 107: `start_month := start / mdata.Month_sec` with
`start := now - 68 * day_sec` (line 106), on int64. -/
def start_month (Month_sec now : Int) : Int :=
  Int.tdiv (wrap64 (now - wrap64 (68 * day_sec))) Month_sec

/-- Line 108: `end_month := (now - 1) / mdata.Month_sec`, on int64. -/
def end_month (Month_sec now : Int) : Int := Int.tdiv (wrap64 (now - 1)) Month_sec

/-- Lines 114-124, the loop
`for from := ...; from <= (month+1)*mdata.Month_sec; from += day_sec`:
`stop` is its bound and the last argument the current value of `from`. The
first argument bounds the number of iterations: the result is `none` when
the loop has not ended within that number. -/
def dayLoop (row_key : String) (month stop : Int) : Nat → Int → Option (List Query)
  | 0, from_ => if from_ ≤ stop then none else some []
  | fuel + 1, from_ =>
    if from_ ≤ stop then
      (dayLoop row_key month stop fuel (wrap64 (from_ + day_sec))).map (fun rest =>
        { row_key := row_key, month := month, from_ := from_,
          to_ := wrap64 (from_ + day_sec) } :: rest)
    else some []

/-- Lines 111-124: the queries of one month bucket. The loop over `from`
starts at `start_month * Month_sec`, its bound is `(month+1) * Month_sec`,
both on int64; it is given `stop - first + 1` iterations. -/
def monthQueries (Id : String) (Month_sec now month : Int) : Option (List Query) :=
  let first := wrap64 (start_month Month_sec now * Month_sec)
  let stop := wrap64 (wrap64 (month + 1) * Month_sec)
  dayLoop (Id ++ "_" ++ toString month) month stop ((stop - first).toNat + 1) first

/-- Lines 110-126, the loop `for month := start_month; month <= end_month;
month++`; the first argument bounds the number of iterations, and the
result is `none` when a loop has not ended within its number. -/
def monthLoop (Id : String) (Month_sec now : Int) : Nat → Int → Option (List Query)
  | 0, month => if month ≤ end_month Month_sec now then none else some []
  | fuel + 1, month =>
    if month ≤ end_month Month_sec now then
      match monthQueries Id Month_sec now month with
      | none => none
      | some ws =>
        (monthLoop Id Month_sec now fuel (wrap64 (month + 1))).map (fun rest => ws ++ rest)
    else some []

/-- The queries that `processMetric` (lines 104-127) issues for the series
`Id` when `time.Now().Unix()` is `now`, in order. -/
def processMetric (Id : String) (Month_sec now : Int) : Option (List Query) :=
  monthLoop Id Month_sec now
    ((end_month Month_sec now - start_month Month_sec now).toNat + 1) (start_month Month_sec now)

/-- The queries of `processMetric` that were issued in the iteration `month`
of the outer loop, that is under the row key of that bucket, in order. -/
def bucketQueries (Id : String) (Month_sec now month : Int) : Option (List Query) :=
  (processMetric Id Month_sec now).map (fun qs => qs.filter (fun q => decide (q.month = month)))

/-! ## Concrete inputs used in the examples below -/

/-- The slice `ttls` built in `main` (lines 59-62). -/
def mainTtls : List Nat := [60 * 60 * 24, 60 * 60 * 24 * 60, 60 * 60 * 24 * 365 * 3]

/-- A table lookup for the three tiers of `main`; any other key gives the
zero value, as a Go map does. -/
def exTables (ttl : Nat) : TTLTable :=
  if ttl = 86400 then { Table := "metric_raw" }
  else if ttl = 5184000 then { Table := "metric_mid" }
  else if ttl = 94608000 then { Table := "metric_long" }
  else { Table := "" }

/-- A migrater as `main` builds it, with an empty channel. -/
def exMigrater : migrater :=
  { chunkChan := [], metricCount := 0, readChunkCount := 0, writeChunkCount := 0,
    ttlTables := exTables, ttls := mainTtls, session := [], stderr := [], engineBuilt := false }

/-- A small codec: every byte of a record is one sample at the start of the
record, sealing sets the flag, and the header is the span. -/
def exCodec : ChunkCodec :=
  { Get := fun ig => (some (ig.B.map (fun b => { ts := ig.Ts, val := b })), none),
    Finish := fun c => { c with Closed := true },
    Bytes := fun c => c.Series,
    PrepareChunkData := fun span b => span :: b }

/-- The chunks of the small engine: none before the first sample, one open
chunk afterwards. -/
def exChunks : List Point → List Chunk
  | [] => []
  | p :: rest =>
    [{ Closed := false, T0 := p.ts, LastTs := ((p :: rest).getLast (by simp)).ts,
       Series := (p :: rest).map (fun q => q.val) }]

/-- A small engine: its state is a key and the samples added so far; it has
one aggregator, with the two aggregate series max and min. -/
def exEngine : AggEngine (String × List Point) (String × List Point) :=
  { NewAggMetric := fun key _ _ _ => (key, []),
    Add := fun am ts val => (am.1, am.2 ++ [{ ts := ts, val := val }]),
    Chunks := fun am => exChunks am.2,
    Key := fun am => am.1,
    GetAggregators := fun am => [am],
    GetAggMetrics := fun agg => [(agg.1 ++ "_max_60", agg.2), (agg.1 ++ "_min_60", agg.2)] }

/-- A series with a ten second interval. -/
def exFine : MetricDefinition := { Id := "a", Interval := 10 }

/-- A series with a one minute interval. -/
def exMinute : MetricDefinition := { Id := "b", Interval := 60 }

/-- A series with a one hour interval. -/
def exCoarse : MetricDefinition := { Id := "c", Interval := 3600 }

/-- A value of `time.Now().Unix()`. -/
def exNow : Int := 1500000000

/-- A record that starts 100 seconds before `exNow`. -/
def exRecent : IterGen := { B := [7], Ts := 1499999900, Span := 600 }

/-- A record that ended ten days before `exNow`. -/
def exOld : IterGen := { B := [5], Ts := 1499135400, Span := 600 }

/-- A driver on which the first statement fails and the later ones succeed. -/
def exFailFirst : List Insert → Insert → Option String
  | [], _ => some "timeout"
  | _ :: _, _ => none

/-- A rendering of `%q` for the examples, whose errors are plain words:
the word between double quotes (the character 34). -/
def exFmtQ (s : String) : String :=
  String.singleton (Char.ofNat 34) ++ s ++ String.singleton (Char.ofNat 34)

/-- A driver on which every statement succeeds. -/
def exOk : List Insert → Insert → Option String := fun _ _ => none

/-- Two tasks on the channel: one with two records, then one with one. -/
def exQueue : List chunkDay :=
  [{ tableName := "metric_mid", id := "a", ttl := 5184000, itergens := [exOld, exRecent] },
   { tableName := "metric_mid", id := "b", ttl := 5184000, itergens := [exRecent] }]

/-- The length of the month bucket in the examples: 28 days. -/
def exMonth : Nat := 60 * 60 * 24 * 28

/-! # Theorems -/

/-! ## Auxiliary facts on the loops of generateChunks -/

/-- The loop of lines 235-239 leaves the task as it was. -/
theorem rawLoop_eq (n : Nat) (cd : chunkDay) (l : List IterGen) : rawLoop n cd l = cd := by
  induction l with
  | nil => rfl
  | cons ig rest ih =>
    unfold rawLoop
    split <;> exact ih

/-- The appending loop puts the records of the chunks, in order, behind what
the slice already holds. -/
theorem appendChunks_eq (C : ChunkCodec) (acc : List IterGen) (chunks : List Chunk) :
    appendChunks C acc chunks = acc ++ chunks.map (bareIterGen C) := by
  induction chunks generalizing acc with
  | nil => simp [appendChunks]
  | cons c rest ih => simp [appendChunks, ih]

/-- The inner sending loop appends one task per aggregate series, in order,
and changes nothing else. -/
theorem sendAggMetrics_eq {AM Agg : Type} (E : AggEngine AM Agg) (C : ChunkCodec) (ttl1 : Nat)
    (am : AM) (m : migrater) (l : List AM) :
    sendAggMetrics E C ttl1 am m l =
      { m with chunkChan := m.chunkChan ++ l.map (rollupChunkDay E C m ttl1 am) } := by
  induction l generalizing m with
  | nil => simp [sendAggMetrics]
  | cons a rest ih =>
    simp only [sendAggMetrics, ih, List.map_cons, List.append_assoc, List.singleton_append]
    rfl

/-- The outer sending loop appends the tasks of all aggregators, in order,
and changes nothing else. -/
theorem sendAggregators_eq {AM Agg : Type} (E : AggEngine AM Agg) (C : ChunkCodec) (ttl1 : Nat)
    (am : AM) (m : migrater) (l : List Agg) :
    sendAggregators E C ttl1 am m l =
      { m with chunkChan := m.chunkChan ++
          (l.map E.GetAggMetrics).flatten.map (rollupChunkDay E C m ttl1 am) } := by
  induction l generalizing m with
  | nil => simp [sendAggregators]
  | cons a rest ih =>
    simp only [sendAggregators, ih, sendAggMetrics_eq, List.map_cons, List.flatten_cons,
      List.map_append, List.append_assoc]
    rfl

/-- The loop over the raw chunks ends without a panic when `Get` gives an
iterator for every chunk that is not skipped. -/
theorem feedChunks_total {AM Agg : Type} (E : AggEngine AM Agg) (C : ChunkCodec)
    (d : MetricDefinition) (drop : Nat) (stderr : List String) (am : AM) (itgens : List IterGen)
    (hGet : ∀ ig ∈ itgens, drop ≤ ig.Ts → (C.Get ig).1 ≠ none) :
    ∃ r, feedChunks E C d drop stderr am itgens = some r := by
  induction itgens generalizing stderr am with
  | nil => exact ⟨_, rfl⟩
  | cons ig rest ih =>
    have hrest : ∀ x ∈ rest, drop ≤ x.Ts → (C.Get x).1 ≠ none :=
      fun x hx => hGet x (List.mem_cons_of_mem _ hx)
    unfold feedChunks
    by_cases hlt : ig.Ts < drop
    · simp only [hlt, if_true]
      exact ih _ _ hrest
    · simp only [hlt, if_false]
      have hne := hGet ig (List.mem_cons_self _ _) (Nat.le_of_not_lt hlt)
      cases hg : (C.Get ig).1 with
      | none => exact absurd hg hne
      | some pts =>
        simp only []
        exact ih _ _ hrest

/-- For an interval below one minute, when the tier `ttls[1]` exists and
`Get` gives an iterator for every chunk that is not skipped, the call
returns, and the channel receives the tasks of the aggregate series, in the
order of the engine, followed by the task that holds the input batch. -/
theorem generateChunks_fine {AM Agg : Type} (E : AggEngine AM Agg) (C : ChunkCodec) (now : Int)
    (m : migrater) (itgens : List IterGen) (d : MetricDefinition) (ttl1 : Nat)
    (hI : d.Interval < 60) (h1 : m.ttls[1]? = some ttl1)
    (hGet : ∀ ig ∈ itgens, dropBefore now ≤ ig.Ts → (C.Get ig).1 ≠ none) :
    ∃ stderr1 am m1,
      feedChunks E C d (dropBefore now) m.stderr (newAggMetric E d ttl1) itgens
        = some (stderr1, am) ∧
      generateChunks E C now m itgens d = some m1 ∧
      m1.chunkChan = m.chunkChan ++
        ((E.GetAggregators am).map E.GetAggMetrics).flatten.map (rollupChunkDay E C m ttl1 am) ++
        [{ tableName := "", id := "", ttl := 0, itergens := itgens }] ∧
      m1.engineBuilt = true := by
  obtain ⟨⟨stderr1, am⟩, hfeed⟩ :=
    feedChunks_total E C d (dropBefore now) m.stderr (newAggMetric E d ttl1) itgens hGet
  have hnot : ¬ d.Interval > 60 * 30 := by omega
  refine ⟨stderr1, am, ?_⟩
  simp only [generateChunks, hnot, if_false, hI, if_true, rollups, h1, hfeed,
    sendAggregators_eq, rawLoop_eq]
  refine ⟨_, trivial, rfl, ?_, rfl⟩
  simp only [List.append_assoc]
  rfl

/-! ## Routing of coarse and of one-minute series -/

/-- C1: for a series whose interval exceeds 1800 seconds the call returns and
sends exactly one task: its ttl is `ttls[2]`, its table the table of that
ttl, its id the id of the series and its chunk list the input batch, in the
same order; no engine is built, so there is no rollup task. -/
theorem generateChunks_coarse {AM Agg : Type} (E : AggEngine AM Agg) (C : ChunkCodec) (now : Int)
    (m : migrater) (itgens : List IterGen) (d : MetricDefinition) (ttl2 : Nat)
    (hI : d.Interval > 1800) (h2 : m.ttls[2]? = some ttl2) :
    ∃ m1, generateChunks E C now m itgens d = some m1 ∧
      m1.chunkChan = m.chunkChan ++
        [{ tableName := (m.ttlTables ttl2).Table, id := d.Id, ttl := ttl2, itergens := itgens }] ∧
      m1.engineBuilt = false := by
  have hgt : d.Interval > 60 * 30 := by omega
  simp only [generateChunks, hgt, if_true, h2]
  exact ⟨_, rfl, rfl, rfl⟩

/-- C1, at a series with a one hour interval and a batch of two chunks. -/
theorem generateChunks_coarse_witness :
    exCoarse.Interval > 1800 ∧ exMigrater.ttls[2]? = some 94608000 ∧
    ∃ m1, generateChunks exEngine exCodec exNow exMigrater [exOld, exRecent] exCoarse = some m1 ∧
      m1.chunkChan = exMigrater.chunkChan ++
        [{ tableName := (exMigrater.ttlTables 94608000).Table, id := exCoarse.Id, ttl := 94608000,
           itergens := [exOld, exRecent] }] ∧
      m1.engineBuilt = false :=
  ⟨by decide, by decide,
    generateChunks_coarse exEngine exCodec exNow exMigrater [exOld, exRecent] exCoarse 94608000
      (by decide) (by decide)⟩

/-- C7: for a series whose interval is at least 60 and below 1800 seconds the
call returns and sends exactly one task, which carries the input batch; no
engine is built and there is no rollup task. -/
theorem generateChunks_band {AM Agg : Type} (E : AggEngine AM Agg) (C : ChunkCodec) (now : Int)
    (m : migrater) (itgens : List IterGen) (d : MetricDefinition)
    (h60 : 60 ≤ d.Interval) (h1800 : d.Interval < 1800) :
    ∃ m1, generateChunks E C now m itgens d = some m1 ∧
      m1.chunkChan = m.chunkChan ++ [{ tableName := "", id := "", ttl := 0, itergens := itgens }] ∧
      m1.engineBuilt = false := by
  have hnot : ¬ d.Interval > 60 * 30 := by omega
  have hnot60 : ¬ d.Interval < 60 := by omega
  simp only [generateChunks, hnot, if_false, hnot60, rawLoop_eq]
  exact ⟨_, rfl, rfl, rfl⟩

/-- C7, at a series with a one minute interval and a batch of two chunks. -/
theorem generateChunks_band_witness :
    60 ≤ exMinute.Interval ∧ exMinute.Interval < 1800 ∧
    ∃ m1, generateChunks exEngine exCodec exNow exMigrater [exOld, exRecent] exMinute = some m1 ∧
      m1.chunkChan = exMigrater.chunkChan ++
        [{ tableName := "", id := "", ttl := 0, itergens := [exOld, exRecent] }] ∧
      m1.engineBuilt = false :=
  ⟨by decide, by decide,
    generateChunks_band exEngine exCodec exNow exMigrater [exOld, exRecent] exMinute
      (by decide) (by decide)⟩

/-- C2: at a series with a one minute interval, with the tiers of `main`
(where `ttls[0]` is one day and no tier has ttl 0), the only task sent has
ttl 0, an empty table name and an empty id: the task of the raw chunks is built at line 151 with
its chunk list only, and lines 167-240 assign none of the other fields. -/
theorem generateChunks_raw_task_fields :
    exMinute.Interval ≤ 1800 ∧ exMigrater.ttls[0]? = some 86400 ∧
    (exMigrater.ttlTables 86400).Table = "metric_raw" ∧ 0 ∉ exMigrater.ttls ∧
    (generateChunks exEngine exCodec exNow exMigrater [exRecent] exMinute).map
        (fun m => m.chunkChan) =
      some [{ tableName := "", id := "", ttl := 0, itergens := [exRecent] }] := by
  decide

/-- C3: at a series with a one minute interval, a chunk whose end lies ten
days before `now`, hence before `noRawBefore`, is still in the chunk list of
the task sent: the loop of lines 235-239 removes nothing. -/
theorem generateChunks_raw_task_keeps_old :
    exMinute.Interval ≤ 1800 ∧
    add32 exOld.Ts exOld.Span < noRawBefore exNow ∧
    (generateChunks exEngine exCodec exNow exMigrater [exOld, exRecent] exMinute).map
        (fun m => m.chunkChan.map (fun t => t.itergens)) =
      some [[exOld, exRecent]] := by
  decide

/-! ## Series with an interval below one minute -/

/-- C5, as stated, fails: for a series with a ten second interval and one
recent chunk the channel receives the two rollup tasks first and the task
of the raw chunks last, so a rollup task (position 0) precedes the task of
the raw chunks (position 2). -/
theorem generateChunks_raw_task_not_first :
    exFine.Interval < 60 ∧
    ∃ q : List chunkDay, (generateChunks exEngine exCodec exNow exMigrater [exRecent] exFine).map
        (fun m => m.chunkChan) = some q ∧
      q.length = 3 ∧
      ∃ i j : Nat, j < i ∧
        q[i]? = some ({ tableName := "", id := "", ttl := 0, itergens := [exRecent] } : chunkDay) ∧
        q[j]? = some (rollupChunkDay exEngine exCodec exMigrater 5184000
          ("a", [{ ts := 1499999900, val := 7 }])
          ("a_max_60", [{ ts := 1499999900, val := 7 }])) :=
  ⟨by decide,
    [{ tableName := "metric_mid", id := "a_max_60", ttl := 5184000,
       itergens := [{ B := [], Ts := 0, Span := 0 }, { B := [7], Ts := 1499999900, Span := 0 }] },
     { tableName := "metric_mid", id := "a_min_60", ttl := 5184000,
       itergens := [{ B := [], Ts := 0, Span := 0 }, { B := [7], Ts := 1499999900, Span := 0 }] },
     { tableName := "", id := "", ttl := 0, itergens := [exRecent] }],
    by decide, by decide, 2, 0, by decide, by decide, by decide⟩

/-- C5, amended: for a series whose interval is below 60 seconds, the tasks
that one call sends are the rollup tasks, one per aggregate series of the
engine and in the order of the engine, followed by the task of the raw
chunks: the task of the raw chunks is the last one, after every rollup
task. -/
theorem generateChunks_raw_task_last {AM Agg : Type} (E : AggEngine AM Agg) (C : ChunkCodec)
    (now : Int) (m : migrater) (itgens : List IterGen) (d : MetricDefinition) (ttl1 : Nat)
    (hI : d.Interval < 60) (h1 : m.ttls[1]? = some ttl1)
    (hGet : ∀ ig ∈ itgens, dropBefore now ≤ ig.Ts → (C.Get ig).1 ≠ none) :
    ∃ stderr1 am m1,
      feedChunks E C d (dropBefore now) m.stderr (newAggMetric E d ttl1) itgens
        = some (stderr1, am) ∧
      generateChunks E C now m itgens d = some m1 ∧
      m1.chunkChan = m.chunkChan ++
        ((E.GetAggregators am).map E.GetAggMetrics).flatten.map (rollupChunkDay E C m ttl1 am) ++
        [{ tableName := "", id := "", ttl := 0, itergens := itgens }] ∧
      m1.chunkChan.getLast? =
        some { tableName := "", id := "", ttl := 0, itergens := itgens } ∧
      ∀ (i : Nat) (t : chunkDay),
        (((E.GetAggregators am).map E.GetAggMetrics).flatten.map
          (rollupChunkDay E C m ttl1 am))[i]? = some t →
        m1.chunkChan[m.chunkChan.length + i]? = some t ∧
        m.chunkChan.length + i < m1.chunkChan.length - 1 := by
  obtain ⟨stderr1, am, m1, hfeed, hgen, hchan, _⟩ :=
    generateChunks_fine E C now m itgens d ttl1 hI h1 hGet
  refine ⟨stderr1, am, m1, hfeed, hgen, hchan, ?_, ?_⟩
  · rw [hchan]
    simp
  · intro i t hi
    have hlen := (List.getElem?_eq_some_iff.mp hi).1
    rw [hchan]
    refine ⟨?_, ?_⟩
    · rw [List.append_assoc, List.getElem?_append_right (by omega)]
      simp only [Nat.add_sub_cancel_left]
      rw [List.getElem?_append_left hlen]
      exact hi
    · simp only [List.length_append, List.length_singleton]
      omega

/-- C5 amended, at a series with a ten second interval. -/
theorem generateChunks_raw_task_last_witness :
    exFine.Interval < 60 ∧ exMigrater.ttls[1]? = some 5184000 ∧
    (∀ ig ∈ [exOld, exRecent], dropBefore exNow ≤ ig.Ts → (exCodec.Get ig).1 ≠ none) ∧
    ∃ stderr1 am m1,
      feedChunks exEngine exCodec exFine (dropBefore exNow) exMigrater.stderr
        (newAggMetric exEngine exFine 5184000) [exOld, exRecent] = some (stderr1, am) ∧
      generateChunks exEngine exCodec exNow exMigrater [exOld, exRecent] exFine = some m1 ∧
      m1.chunkChan = exMigrater.chunkChan ++
        ((exEngine.GetAggregators am).map exEngine.GetAggMetrics).flatten.map
          (rollupChunkDay exEngine exCodec exMigrater 5184000 am) ++
        [{ tableName := "", id := "", ttl := 0, itergens := [exOld, exRecent] }] ∧
      m1.chunkChan.getLast? =
        some { tableName := "", id := "", ttl := 0, itergens := [exOld, exRecent] } ∧
      ∀ (i : Nat) (t : chunkDay),
        (((exEngine.GetAggregators am).map exEngine.GetAggMetrics).flatten.map
          (rollupChunkDay exEngine exCodec exMigrater 5184000 am))[i]? = some t →
        m1.chunkChan[exMigrater.chunkChan.length + i]? = some t ∧
        exMigrater.chunkChan.length + i < m1.chunkChan.length - 1 :=
  ⟨by decide, by decide, by decide,
    generateChunks_raw_task_last exEngine exCodec exNow exMigrater [exOld, exRecent] exFine 5184000
      (by decide) (by decide) (by decide)⟩

/-- C8: for a series whose interval is below 60 seconds, when the tier
`ttls[1]` exists and every chunk in the window can be iterated, the call
returns and sends, before the task of the raw chunks, exactly one task per
aggregate series of the engine (all series of all aggregators), in the order
of the engine; each has ttl `ttls[1]`, the table of that ttl, and the key of
its aggregate series as id. -/
theorem generateChunks_rollup_tasks {AM Agg : Type} (E : AggEngine AM Agg) (C : ChunkCodec)
    (now : Int) (m : migrater) (itgens : List IterGen) (d : MetricDefinition) (ttl1 : Nat)
    (hI : d.Interval < 60) (h1 : m.ttls[1]? = some ttl1)
    (hGet : ∀ ig ∈ itgens, dropBefore now ≤ ig.Ts → (C.Get ig).1 ≠ none) :
    ∃ stderr1 am m1 tasks,
      feedChunks E C d (dropBefore now) m.stderr (newAggMetric E d ttl1) itgens
        = some (stderr1, am) ∧
      generateChunks E C now m itgens d = some m1 ∧
      m1.chunkChan = m.chunkChan ++ tasks ++
        [{ tableName := "", id := "", ttl := 0, itergens := itgens }] ∧
      tasks.length = ((E.GetAggregators am).map E.GetAggMetrics).flatten.length ∧
      tasks.map (fun t => (t.ttl, t.tableName, t.id)) =
        ((E.GetAggregators am).map E.GetAggMetrics).flatten.map
          (fun aggMetric => (ttl1, (m.ttlTables ttl1).Table, E.Key aggMetric)) := by
  obtain ⟨stderr1, am, m1, hfeed, hgen, hchan, _⟩ :=
    generateChunks_fine E C now m itgens d ttl1 hI h1 hGet
  refine ⟨stderr1, am, m1, _, hfeed, hgen, hchan, List.length_map _ _, ?_⟩
  simp only [List.map_map]
  rfl

/-- C8, at a series with a ten second interval. -/
theorem generateChunks_rollup_tasks_witness :
    exFine.Interval < 60 ∧ exMigrater.ttls[1]? = some 5184000 ∧
    (∀ ig ∈ [exRecent], dropBefore exNow ≤ ig.Ts → (exCodec.Get ig).1 ≠ none) ∧
    ∃ stderr1 am m1 tasks,
      feedChunks exEngine exCodec exFine (dropBefore exNow) exMigrater.stderr
        (newAggMetric exEngine exFine 5184000) [exRecent] = some (stderr1, am) ∧
      generateChunks exEngine exCodec exNow exMigrater [exRecent] exFine = some m1 ∧
      m1.chunkChan = exMigrater.chunkChan ++ tasks ++
        [{ tableName := "", id := "", ttl := 0, itergens := [exRecent] }] ∧
      tasks.length = ((exEngine.GetAggregators am).map exEngine.GetAggMetrics).flatten.length ∧
      tasks.map (fun t => (t.ttl, t.tableName, t.id)) =
        ((exEngine.GetAggregators am).map exEngine.GetAggMetrics).flatten.map
          (fun aggMetric => (5184000, (exMigrater.ttlTables 5184000).Table,
            exEngine.Key aggMetric)) :=
  ⟨by decide, by decide, by decide,
    generateChunks_rollup_tasks exEngine exCodec exNow exMigrater [exRecent] exFine 5184000
      (by decide) (by decide) (by decide)⟩

/-- C9: at a series with a ten second interval and one recent chunk with one
sample, each of the two aggregate series has one chunk, yet the chunk list
of each rollup task has two records: the zero record that `make` put there,
since `am.Chunks` holds one chunk, and then the record of the aggregate
chunk. -/
theorem generateChunks_rollup_zero_record :
    exFine.Interval < 60 ∧
    feedChunks exEngine exCodec exFine (dropBefore exNow) exMigrater.stderr
        (newAggMetric exEngine exFine 5184000) [exRecent]
      = some ([], ("a", [{ ts := 1499999900, val := 7 }])) ∧
    (exEngine.Chunks ("a", [{ ts := 1499999900, val := 7 }])).length = 1 ∧
    ((exEngine.GetAggregators ("a", [{ ts := 1499999900, val := 7 }])).map
        exEngine.GetAggMetrics).flatten.map (fun aggMetric => (exEngine.Chunks aggMetric).length)
      = [1, 1] ∧
    (generateChunks exEngine exCodec exNow exMigrater [exRecent] exFine).map
        (fun m => m.chunkChan.map (fun t => (t.id, t.itergens))) =
      some [("a_max_60", [{ B := [], Ts := 0, Span := 0 }, { B := [7], Ts := 1499999900, Span := 0 }]),
            ("a_min_60", [{ B := [], Ts := 0, Span := 0 }, { B := [7], Ts := 1499999900, Span := 0 }]),
            ("", [exRecent])] := by
  decide

/-! ## The writer -/

/-- No statement leaves no line. -/
theorem failureLines_nil (fmtQ : String → String) (exec : List Insert → Insert → Option String)
    (hist : List Insert) : failureLines fmtQ exec hist [] = [] := by
  simp [failureLines]

/-- The lines of a list of statements: the line of the first one, if the
driver answers it with an error, then the lines of the others, executed on
the session that has executed the first one as well. -/
theorem failureLines_cons (fmtQ : String → String) (exec : List Insert → Insert → Option String)
    (hist : List Insert) (ins : Insert) (rest : List Insert) :
    failureLines fmtQ exec hist (ins :: rest) =
      ((exec hist ins).map (fun err => "Error in query: " ++ fmtQ err ++ "\n" ++ "\n")).toList ++
        failureLines fmtQ exec (hist ++ [ins]) rest := by
  unfold failureLines
  rw [List.length_cons, List.range_succ_eq_map, List.filterMap_cons, List.filterMap_map]
  have htail : (fun k => ((ins :: rest)[k]?).bind (fun s =>
        (exec (hist ++ (ins :: rest).take k) s).map (fun err =>
          "Error in query: " ++ fmtQ err ++ "\n" ++ "\n"))) ∘ Nat.succ =
      (fun k => (rest[k]?).bind (fun s =>
        (exec (hist ++ [ins] ++ rest.take k) s).map (fun err =>
          "Error in query: " ++ fmtQ err ++ "\n" ++ "\n"))) := by
    funext k
    simp
  rw [htail]
  cases hx : exec hist ins with
  | none => simp [hx]
  | some err => simp [hx]

/-- The lines of two lists of statements executed one after the other. -/
theorem failureLines_append (fmtQ : String → String) (exec : List Insert → Insert → Option String)
    (hist a b : List Insert) :
    failureLines fmtQ exec hist (a ++ b) =
      failureLines fmtQ exec hist a ++ failureLines fmtQ exec (hist ++ a) b := by
  induction a generalizing hist with
  | nil => simp [failureLines_nil]
  | cons x rest ih =>
    rw [List.cons_append, failureLines_cons, failureLines_cons, ih, List.append_assoc,
      List.append_assoc]
    simp

/-- What `insertChunks` leaves behind: one statement per record behind the
statements already executed, one line on the error stream per statement
that failed, and the counter of written tasks untouched. -/
theorem insertChunks_eq (Month_sec : Nat) (C : ChunkCodec) (fmtQ : String → String)
    (exec : List Insert → Insert → Option String) (table id : String) (ttl : Nat)
    (m : migrater) (itergens : List IterGen) :
    (insertChunks Month_sec C fmtQ exec table id ttl m itergens).session =
        m.session ++ itergens.map (insertStmt Month_sec C table id ttl) ∧
      (insertChunks Month_sec C fmtQ exec table id ttl m itergens).writeChunkCount
        = m.writeChunkCount ∧
      (insertChunks Month_sec C fmtQ exec table id ttl m itergens).stderr =
        m.stderr ++ failureLines fmtQ exec m.session
          (itergens.map (insertStmt Month_sec C table id ttl)) := by
  induction itergens generalizing m with
  | nil => simp [insertChunks, failureLines_nil]
  | cons ig rest ih =>
    simp only [insertChunks, List.map_cons, failureLines_cons]
    cases exec m.session (insertStmt Month_sec C table id ttl ig) with
    | none =>
      dsimp only
      exact ⟨by rw [(ih _).1]; simp, by rw [(ih _).2.1], by rw [(ih _).2.2]; simp⟩
    | some err =>
      dsimp only
      exact ⟨by rw [(ih _).1]; simp, by rw [(ih _).2.1],
        by rw [(ih _).2.2]; simp [throwError_]⟩

/-- The loop of the writer executes the statements of all tasks, task after
task, counts every task, and leaves one line on the error stream per
statement that failed. -/
theorem writeLoop_eq (Month_sec : Nat) (C : ChunkCodec) (fmtQ : String → String)
    (exec : List Insert → Insert → Option String) (m : migrater) (q : List chunkDay) :
    (writeLoop Month_sec C fmtQ exec m q).session =
        m.session ++ (q.map (fun t =>
          t.itergens.map (insertStmt Month_sec C t.tableName t.id t.ttl))).flatten ∧
      (writeLoop Month_sec C fmtQ exec m q).writeChunkCount = m.writeChunkCount + q.length ∧
      (writeLoop Month_sec C fmtQ exec m q).stderr =
        m.stderr ++ failureLines fmtQ exec m.session (q.map (fun t =>
          t.itergens.map (insertStmt Month_sec C t.tableName t.id t.ttl))).flatten := by
  induction q generalizing m with
  | nil => simp [writeLoop, failureLines_nil]
  | cons t rest ih =>
    unfold writeLoop
    simp only []
    obtain ⟨h1, h2, h5⟩ := ih
      { insertChunks Month_sec C fmtQ exec t.tableName t.id t.ttl m t.itergens with
        writeChunkCount :=
          (insertChunks Month_sec C fmtQ exec t.tableName t.id t.ttl m t.itergens).writeChunkCount
            + 1 }
    obtain ⟨h3, h4, h6⟩ := insertChunks_eq Month_sec C fmtQ exec t.tableName t.id t.ttl m t.itergens
    refine ⟨?_, ?_, ?_⟩
    · rw [h1]
      simp only [h3, List.map_cons, List.flatten_cons, List.append_assoc]
    · rw [h2]
      simp only [h4, List.length_cons]
      omega
    · rw [h5]
      simp only [h3, h6, List.map_cons, List.flatten_cons, failureLines_append,
        List.append_assoc]

/-- C4: `insertChunks` executes exactly one statement per chunk record, in
list order, behind the statements executed before. The statement of a
record that starts at `Ts` names the given table and ttl in its query text,
has timestamp `Ts`, and its row key is the id, an underscore and the decimal
rendering of the bucket `b` with `b * Month_sec ≤ Ts < (b + 1) * Month_sec`,
that is of the floor of `Ts / Month_sec`. -/
theorem insertChunks_statements (Month_sec : Nat) (C : ChunkCodec) (fmtQ : String → String)
    (exec : List Insert → Insert → Option String) (table id : String) (ttl : Nat)
    (m : migrater) (itergens : List IterGen) (hM : 0 < Month_sec) :
    ∃ inserts : List Insert,
      (insertChunks Month_sec C fmtQ exec table id ttl m itergens).session
        = m.session ++ inserts ∧
      inserts.length = itergens.length ∧
      ∀ (k : Nat) (ig : IterGen), itergens[k]? = some ig →
        ∃ ins : Insert, inserts[k]? = some ins ∧
          ins.query = "INSERT INTO " ++ table ++ " (key, ts, data) values (?,?,?) USING TTL "
            ++ toString ttl ∧
          ins.ts = ig.Ts ∧
          ins.data = C.PrepareChunkData ig.Span ig.B ∧
          ∃ b, b * Month_sec ≤ ig.Ts ∧ ig.Ts < (b + 1) * Month_sec ∧
            ins.rowKey = id ++ "_" ++ toString b := by
  refine ⟨itergens.map (insertStmt Month_sec C table id ttl),
    (insertChunks_eq Month_sec C fmtQ exec table id ttl m itergens).1, List.length_map _ _, ?_⟩
  intro k ig hk
  refine ⟨insertStmt Month_sec C table id ttl ig, ?_, rfl, rfl, rfl, ig.Ts / Month_sec, ?_, ?_, rfl⟩
  · simp [List.getElem?_map, hk]
  · exact Nat.div_mul_le_self _ _
  · have hlt := Nat.lt_div_mul_add (a := ig.Ts) hM
    rw [Nat.add_mul, Nat.one_mul]
    exact hlt

/-- C4, at a task with two records and a bucket length of 28 days. -/
theorem insertChunks_statements_witness :
    0 < exMonth ∧
    ∃ inserts : List Insert,
      (insertChunks exMonth exCodec exFmtQ exOk "metric_mid" "a" 5184000 exMigrater
        [exOld, exRecent]).session = exMigrater.session ++ inserts ∧
      inserts.length = [exOld, exRecent].length ∧
      ∀ (k : Nat) (ig : IterGen), [exOld, exRecent][k]? = some ig →
        ∃ ins : Insert, inserts[k]? = some ins ∧
          ins.query = "INSERT INTO " ++ "metric_mid" ++ " (key, ts, data) values (?,?,?) USING TTL "
            ++ toString 5184000 ∧
          ins.ts = ig.Ts ∧
          ins.data = exCodec.PrepareChunkData ig.Span ig.B ∧
          ∃ b, b * exMonth ≤ ig.Ts ∧ ig.Ts < (b + 1) * exMonth ∧
            ins.rowKey = "a" ++ "_" ++ toString b :=
  ⟨by decide,
    insertChunks_statements exMonth exCodec exFmtQ exOk "metric_mid" "a" 5184000 exMigrater
      [exOld, exRecent] (by decide)⟩

/-- C6, as stated, fails: on a driver whose first statement fails, the
writer still executes the statement of the second record of the first task
and the statement of the second task, and counts both tasks; the failure
leaves one message on the error stream. -/
theorem write_goes_on_after_failure :
    exFailFirst [] (insertStmt exMonth exCodec "metric_mid" "a" 5184000 exOld) = some "timeout" ∧
    (write exMonth exCodec exFmtQ exFailFirst { exMigrater with chunkChan := exQueue }).session =
      [insertStmt exMonth exCodec "metric_mid" "a" 5184000 exOld,
       insertStmt exMonth exCodec "metric_mid" "a" 5184000 exRecent,
       insertStmt exMonth exCodec "metric_mid" "b" 5184000 exRecent] ∧
    (write exMonth exCodec exFmtQ exFailFirst
      { exMigrater with chunkChan := exQueue }).writeChunkCount = 2 ∧
    (write exMonth exCodec exFmtQ exFailFirst { exMigrater with chunkChan := exQueue }).stderr =
      ["Error in query: " ++ exFmtQ "timeout" ++ "\n" ++ "\n"] := by
  decide

/-- C6, amended: a failing insert writes a message to the error stream and
does not stop the run. Whatever the driver answers to each statement,
`insertChunks` executes the statement of every record of its task, in
order, and `write` executes the statements of every task that was sent on
the channel, task after task, and counts every task; in both, the error
stream receives, in order, one line `Error in query: ...` for each statement
that the driver answered with an error, and nothing else. -/
theorem write_runs_every_insert (Month_sec : Nat) (C : ChunkCodec) (fmtQ : String → String)
    (exec : List Insert → Insert → Option String) (m : migrater) :
    (∀ (table id : String) (ttl : Nat) (itergens : List IterGen),
      (insertChunks Month_sec C fmtQ exec table id ttl m itergens).session =
        m.session ++ itergens.map (insertStmt Month_sec C table id ttl) ∧
      (insertChunks Month_sec C fmtQ exec table id ttl m itergens).stderr =
        m.stderr ++ failureLines fmtQ exec m.session
          (itergens.map (insertStmt Month_sec C table id ttl))) ∧
    (write Month_sec C fmtQ exec m).session =
      m.session ++ (m.chunkChan.map (fun t =>
        t.itergens.map (insertStmt Month_sec C t.tableName t.id t.ttl))).flatten ∧
    (write Month_sec C fmtQ exec m).writeChunkCount = m.writeChunkCount + m.chunkChan.length ∧
    (write Month_sec C fmtQ exec m).stderr =
      m.stderr ++ failureLines fmtQ exec m.session (m.chunkChan.map (fun t =>
        t.itergens.map (insertStmt Month_sec C t.tableName t.id t.ttl))).flatten ∧
    (∀ (hist : List Insert) (ins : Insert) (rest : List Insert) (err : String),
      exec hist ins = some err →
      failureLines fmtQ exec hist (ins :: rest) =
        ("Error in query: " ++ fmtQ err ++ "\n" ++ "\n") ::
          failureLines fmtQ exec (hist ++ [ins]) rest) ∧
    (∀ (hist : List Insert) (ins : Insert) (rest : List Insert),
      exec hist ins = none →
      failureLines fmtQ exec hist (ins :: rest) = failureLines fmtQ exec (hist ++ [ins]) rest) :=
  ⟨fun table id ttl itergens =>
      ⟨(insertChunks_eq Month_sec C fmtQ exec table id ttl m itergens).1,
        (insertChunks_eq Month_sec C fmtQ exec table id ttl m itergens).2.2⟩,
    (writeLoop_eq Month_sec C fmtQ exec { m with chunkChan := [] } m.chunkChan).1,
    (writeLoop_eq Month_sec C fmtQ exec { m with chunkChan := [] } m.chunkChan).2.1,
    (writeLoop_eq Month_sec C fmtQ exec { m with chunkChan := [] } m.chunkChan).2.2,
    fun hist ins rest err h => by rw [failureLines_cons, h]; rfl,
    fun hist ins rest h => by rw [failureLines_cons, h]; rfl⟩

/-- C6 amended, on the driver whose first statement fails and the channel
with two tasks: the three statements are executed, both tasks are counted,
and the failed first statement leaves its line on the error stream. -/
theorem write_runs_every_insert_witness :
    exFailFirst [] (insertStmt exMonth exCodec "metric_mid" "a" 5184000 exOld) = some "timeout" ∧
    (write exMonth exCodec exFmtQ exFailFirst { exMigrater with chunkChan := exQueue }).session =
      exMigrater.session ++ (exQueue.map (fun t =>
        t.itergens.map (insertStmt exMonth exCodec t.tableName t.id t.ttl))).flatten ∧
    (write exMonth exCodec exFmtQ exFailFirst { exMigrater with chunkChan := exQueue }).stderr =
      exMigrater.stderr ++ failureLines exFmtQ exFailFirst exMigrater.session (exQueue.map (fun t =>
        t.itergens.map (insertStmt exMonth exCodec t.tableName t.id t.ttl))).flatten ∧
    failureLines exFmtQ exFailFirst []
        (insertStmt exMonth exCodec "metric_mid" "a" 5184000 exOld ::
          [insertStmt exMonth exCodec "metric_mid" "a" 5184000 exRecent]) =
      ("Error in query: " ++ exFmtQ "timeout" ++ "\n" ++ "\n") ::
        failureLines exFmtQ exFailFirst
          ([] ++ [insertStmt exMonth exCodec "metric_mid" "a" 5184000 exOld])
          [insertStmt exMonth exCodec "metric_mid" "a" 5184000 exRecent] :=
  ⟨by decide,
    (write_runs_every_insert exMonth exCodec exFmtQ exFailFirst
      { exMigrater with chunkChan := exQueue }).2.1,
    (write_runs_every_insert exMonth exCodec exFmtQ exFailFirst
      { exMigrater with chunkChan := exQueue }).2.2.2.1,
    (write_runs_every_insert exMonth exCodec exFmtQ exFailFirst
      { exMigrater with chunkChan := exQueue }).2.2.2.2.1 []
      (insertStmt exMonth exCodec "metric_mid" "a" 5184000 exOld)
      [insertStmt exMonth exCodec "metric_mid" "a" 5184000 exRecent] "timeout" (by decide)⟩

/-! ## The day windows of processMetric -/

/-- The value of `day_sec`. -/
theorem day_sec_eq : day_sec = 86400 := by decide

/-- An int64 operation whose exact value is in the int64 range gives that
value. -/
theorem wrap64_eq (x : Int) (hlo : -9223372036854775808 ≤ x) (hhi : x < 9223372036854775808) :
    wrap64 x = x := by
  unfold wrap64
  omega

/-- The day loop from `f`, when no `from + day_sec` leaves the int64 range
and the loop is given more than `stop - f` iterations: it ends, every query
carries the row key and the month of the loop, starts between `f` and the
bound and spans one day, the first query starts at `f`, each query starts
where the one before ends, later queries start at or after the end of
earlier ones, and every timestamp after `f` and up to the bound lies in a
window. -/
theorem dayLoop_spec (key : String) (mo stop : Int) (fuel : Nat) (f : Int)
    (hf : -9223372036854775808 ≤ f) (hs : stop + 86400 < 9223372036854775808)
    (hfuel : stop - f < fuel) :
    ∃ ws, dayLoop key mo stop fuel f = some ws ∧
      (∀ q ∈ ws, q.row_key = key ∧ q.month = mo ∧ f ≤ q.from_ ∧ q.from_ ≤ stop ∧
        q.to_ = q.from_ + 86400) ∧
      (f ≤ stop → ∃ q, ws.head? = some q ∧ q.from_ = f) ∧
      List.Chain' (fun a b : Query => b.from_ = a.to_) ws ∧
      List.Pairwise (fun a b : Query => a.to_ ≤ b.from_) ws ∧
      ∀ t : Int, f < t → t ≤ stop → ∃ q ∈ ws, q.from_ < t ∧ t ≤ q.to_ := by
  induction fuel generalizing f with
  | zero =>
    have hgt : ¬ f ≤ stop := by simp at hfuel; omega
    refine ⟨[], by simp [dayLoop, hgt], by simp, fun h => absurd h hgt, by simp, by simp, ?_⟩
    intro t h1 h2
    omega
  | succ n ih =>
    by_cases hle : f ≤ stop
    · have hw : wrap64 (f + day_sec) = f + 86400 := by
        rw [day_sec_eq]
        exact wrap64_eq _ (by omega) (by omega)
      obtain ⟨ws, hws, hmem, hhead, hchain, hpair, hcover⟩ :=
        ih (f + 86400) (by omega) (by push_cast at hfuel; omega)
      refine ⟨{ row_key := key, month := mo, from_ := f, to_ := f + 86400 } :: ws, ?_, ?_, ?_,
        ?_, ?_, ?_⟩
      · simp only [dayLoop, hle, if_true, hw, hws, Option.map_some']
      · intro q hq
        rcases List.mem_cons.mp hq with hq | hq
        · subst hq
          exact ⟨rfl, rfl, le_refl _, hle, rfl⟩
        · have h := hmem q hq
          exact ⟨h.1, h.2.1, by omega, h.2.2.2.1, h.2.2.2.2⟩
      · intro _
        exact ⟨_, rfl, rfl⟩
      · rw [List.chain'_cons']
        refine ⟨?_, hchain⟩
        intro y hy
        cases ws with
        | nil => simp at hy
        | cons w rest =>
          have hwm := (hmem w (List.mem_cons_self _ _)).2.2.2.1
          have hwf := (hmem w (List.mem_cons_self _ _)).2.2.1
          obtain ⟨q, hq1, hq2⟩ := hhead (le_trans hwf hwm)
          rw [hy] at hq1
          cases hq1
          exact hq2
      · rw [List.pairwise_cons]
        refine ⟨?_, hpair⟩
        intro y hy
        exact (hmem y hy).2.2.1
      · intro t h1 h2
        by_cases hin : t ≤ f + 86400
        · exact ⟨_, List.mem_cons_self _ _, h1, hin⟩
        · obtain ⟨q, hq, h3, h4⟩ := hcover t (by omega) h2
          exact ⟨q, List.mem_cons_of_mem _ hq, h3, h4⟩
    · refine ⟨[], by simp [dayLoop, hle], by simp, fun h => absurd h hle, by simp, by simp, ?_⟩
      intro t h1 h2
      omega

/-- On a clock of at least 68 days the quotients of lines 107 and 108 are
the quotients of nonnegative numbers, hence the floors. -/
theorem month_bounds (Month_sec now : Int) (hM : 0 < Month_sec)
    (hnow : 68 * day_sec ≤ now) (hmax : now + Month_sec + day_sec < 9223372036854775808) :
    start_month Month_sec now = (now - 5875200) / Month_sec ∧
      end_month Month_sec now = (now - 1) / Month_sec := by
  rw [day_sec_eq] at hnow hmax
  have h68 : wrap64 (68 * day_sec) = 5875200 := by decide
  unfold start_month end_month
  rw [h68, wrap64_eq (now - 5875200) (by omega) (by omega),
    wrap64_eq (now - 1) (by omega) (by omega)]
  exact ⟨Int.tdiv_eq_ediv (by omega) (le_of_lt hM), Int.tdiv_eq_ediv (by omega) (le_of_lt hM)⟩

/-- The queries of one bucket between `start_month` and `end_month`, on a
clock of at least 68 days for which no int64 value of the loops wraps: the
day loop ends, and its windows have the row key of the bucket, start at
`start_month * Month_sec`, are contiguous, ordered, and cover every
timestamp up to `(month + 1) * Month_sec`. -/
theorem monthQueries_spec (Id : String) (Month_sec now month : Int) (hM : 0 < Month_sec)
    (hnow : 68 * day_sec ≤ now) (hmax : now + Month_sec + day_sec < 9223372036854775808)
    (hlo : start_month Month_sec now ≤ month) (hhi : month ≤ end_month Month_sec now) :
    ∃ ws, monthQueries Id Month_sec now month = some ws ∧
      (∀ q ∈ ws, q.row_key = Id ++ "_" ++ toString month ∧ q.month = month ∧
        start_month Month_sec now * Month_sec ≤ q.from_ ∧ q.from_ ≤ (month + 1) * Month_sec ∧
        q.to_ = q.from_ + 86400) ∧
      (∃ q, ws.head? = some q ∧ q.from_ = start_month Month_sec now * Month_sec) ∧
      List.Chain' (fun a b : Query => b.from_ = a.to_) ws ∧
      List.Pairwise (fun a b : Query => a.to_ ≤ b.from_) ws ∧
      ∀ t : Int, start_month Month_sec now * Month_sec < t → t ≤ (month + 1) * Month_sec →
        ∃ q ∈ ws, q.from_ < t ∧ t ≤ q.to_ := by
  obtain ⟨hS, hE⟩ := month_bounds Month_sec now hM hnow hmax
  rw [day_sec_eq] at hnow hmax
  have hS0 : 0 ≤ start_month Month_sec now := by
    rw [hS]
    exact Int.ediv_nonneg (by omega) (le_of_lt hM)
  have hE0 : 0 ≤ end_month Month_sec now := le_trans hS0 (le_trans hlo hhi)
  have hEM : end_month Month_sec now * Month_sec ≤ now - 1 := by
    rw [hE]
    exact Int.ediv_mul_le _ (ne_of_gt hM)
  have hEle : end_month Month_sec now ≤ end_month Month_sec now * Month_sec :=
    le_mul_of_one_le_right hE0 (by omega)
  have hfirst0 : 0 ≤ start_month Month_sec now * Month_sec := mul_nonneg hS0 (le_of_lt hM)
  have hstop1 : (month + 1) * Month_sec ≤ (end_month Month_sec now + 1) * Month_sec :=
    mul_le_mul_of_nonneg_right (by omega) (le_of_lt hM)
  have hstop2 : (end_month Month_sec now + 1) * Month_sec =
      end_month Month_sec now * Month_sec + Month_sec := by ring
  have hstop0 : start_month Month_sec now * Month_sec ≤ (month + 1) * Month_sec :=
    mul_le_mul_of_nonneg_right (by omega) (le_of_lt hM)
  have hw1 : wrap64 (start_month Month_sec now * Month_sec) =
      start_month Month_sec now * Month_sec :=
    wrap64_eq _ (by linarith) (by linarith)
  have hw2 : wrap64 (month + 1) = month + 1 := wrap64_eq _ (by linarith) (by linarith)
  have hw3 : wrap64 ((month + 1) * Month_sec) = (month + 1) * Month_sec :=
    wrap64_eq _ (by linarith) (by linarith)
  obtain ⟨ws, hws, hmem, hhead, hchain, hpair, hcover⟩ :=
    dayLoop_spec (Id ++ "_" ++ toString month) month ((month + 1) * Month_sec)
      (((month + 1) * Month_sec - start_month Month_sec now * Month_sec).toNat + 1)
      (start_month Month_sec now * Month_sec) (by linarith) (by linarith)
      (by
        have h := Int.self_le_toNat
          ((month + 1) * Month_sec - start_month Month_sec now * Month_sec)
        push_cast
        linarith)
  refine ⟨ws, ?_, hmem, hhead hstop0, hchain, hpair, hcover⟩
  simp only [monthQueries, hw1, hw2, hw3]
  exact hws

/-- The month loop from `cur`, when every bucket from `cur` to `end_month`
has its queries, `month++` does not wrap, and the loop is given more than
`end_month - cur` iterations: it ends, it issues queries for the month
`cur` and later ones only, and the queries it issues with the month of a
bucket are the queries of that bucket. -/
theorem monthLoop_spec (Id : String) (Month_sec now : Int) (fuel : Nat) (cur : Int)
    (hq : ∀ mo, cur ≤ mo → mo ≤ end_month Month_sec now →
      ∃ ws, monthQueries Id Month_sec now mo = some ws ∧ ∀ q ∈ ws, q.month = mo)
    (hcur : -9223372036854775808 ≤ cur)
    (hend : end_month Month_sec now + 1 < 9223372036854775808)
    (hfuel : end_month Month_sec now - cur < fuel) :
    ∃ qs, monthLoop Id Month_sec now fuel cur = some qs ∧
      (∀ q ∈ qs, cur ≤ q.month) ∧
      ∀ month ws, cur ≤ month → month ≤ end_month Month_sec now →
        monthQueries Id Month_sec now month = some ws →
        qs.filter (fun q => decide (q.month = month)) = ws := by
  induction fuel generalizing cur with
  | zero =>
    have hgt : ¬ cur ≤ end_month Month_sec now := by simp at hfuel; omega
    refine ⟨[], by simp [monthLoop, hgt], by simp, ?_⟩
    intro month ws h1 h2 _
    omega
  | succ n ih =>
    by_cases hle : cur ≤ end_month Month_sec now
    · obtain ⟨ws0, hws0, hmonth0⟩ := hq cur (le_refl _) hle
      have hw : wrap64 (cur + 1) = cur + 1 := wrap64_eq _ (by omega) (by omega)
      obtain ⟨rest, hrest, hge, hfilter⟩ := ih (cur + 1)
        (fun mo h1 h2 => hq mo (by omega) h2) (by omega) (by push_cast at hfuel; omega)
      refine ⟨ws0 ++ rest, ?_, ?_, ?_⟩
      · simp only [monthLoop, hle, if_true, hws0, hw, hrest, Option.map_some']
      · intro q hq1
        rcases List.mem_append.mp hq1 with h | h
        · exact le_of_eq (hmonth0 q h).symm
        · have := hge q h
          omega
      · intro month ws h1 h2 hws
        rw [List.filter_append]
        by_cases heq : cur = month
        · subst heq
          rw [hws0] at hws
          cases hws
          have hself : ws0.filter (fun q => decide (q.month = cur)) = ws0 := by
            rw [List.filter_eq_self]
            intro q hq1
            simp [hmonth0 q hq1]
          have hnil : rest.filter (fun q => decide (q.month = cur)) = [] := by
            rw [List.filter_eq_nil_iff]
            intro q hq1
            have := hge q hq1
            simp only [decide_eq_true_eq]
            omega
          rw [hself, hnil, List.append_nil]
        · have hnil : ws0.filter (fun q => decide (q.month = month)) = [] := by
            rw [List.filter_eq_nil_iff]
            intro q hq1
            have := hmonth0 q hq1
            simp only [decide_eq_true_eq]
            omega
          rw [hnil, List.nil_append]
          exact hfilter month ws (by omega) h2 hws
    · refine ⟨[], by simp [monthLoop, hle], by simp, ?_⟩
      intro month ws h1 h2 _
      omega

set_option maxRecDepth 100000 in
/-- C10, as stated, fails one day after the epoch with a bucket of 28 days:
the floor of `(now - 68 days) / Month_sec` is -3 and the floor of
`(now - 1) / Month_sec` is 0, so bucket 0 lies between them, but
`start_month` is -2, since Go truncates the quotient of the negative `start`
toward zero: the loops end, the first window queried for bucket 0 starts at
`-2 * Month_sec`, and the timestamp `-3 * Month_sec + 1` lies in no window
of the bucket. -/
theorem processMetric_windows_start_truncated :
    ((-3 : Int) * 2419200 ≤ 86400 - 68 * day_sec ∧ 86400 - 68 * day_sec < (-3 + 1) * 2419200) ∧
    ((0 : Int) * 2419200 ≤ 86400 - 1 ∧ (86400 : Int) - 1 < (0 + 1) * 2419200) ∧
    start_month 2419200 86400 = -2 ∧
    (bucketQueries "a" 2419200 86400 0).isSome = true ∧
    (∀ ws ∈ bucketQueries "a" 2419200 86400 0,
      ws.head?.map (fun q => q.from_) = some (-2 * 2419200)) ∧
    ∀ ws ∈ bucketQueries "a" 2419200 86400 0, ∀ q ∈ ws,
      ¬ (q.from_ < -3 * 2419200 + 1 ∧ -3 * 2419200 + 1 ≤ q.to_) := by
  decide

/-- C10, amended: for every `now` of at least 68 days for which no int64
value of the loops wraps (`now + Month_sec + day_sec` is below `2^63`),
`start_month` and `end_month` are the floors of `(now - 68 days) / Month_sec`
and of `(now - 1) / Month_sec`, and for every bucket `month` between them
the loops end and the windows `(from, from + 86400]` queried under the row
key of the bucket start at `start_month * Month_sec`, each begins where the
one before ends, they are pairwise disjoint, and every timestamp `t` with
`start_month * Month_sec < t ≤ (month + 1) * Month_sec` lies in one of
them. -/
theorem processMetric_windows (Id : String) (Month_sec now month : Int)
    (hM : 0 < Month_sec)
    (hnow : 68 * day_sec ≤ now) (hmax : now + Month_sec + day_sec < 9223372036854775808)
    (hlo : start_month Month_sec now ≤ month) (hhi : month ≤ end_month Month_sec now) :
    (start_month Month_sec now * Month_sec ≤ now - 68 * day_sec ∧
      now - 68 * day_sec < (start_month Month_sec now + 1) * Month_sec) ∧
    (end_month Month_sec now * Month_sec ≤ now - 1 ∧
      now - 1 < (end_month Month_sec now + 1) * Month_sec) ∧
    ∃ ws, bucketQueries Id Month_sec now month = some ws ∧
      (∀ q ∈ ws, q.row_key = Id ++ "_" ++ toString month ∧ q.to_ = q.from_ + 86400) ∧
      (∃ q, ws.head? = some q ∧ q.from_ = start_month Month_sec now * Month_sec) ∧
      List.Chain' (fun a b : Query => b.from_ = a.to_) ws ∧
      List.Pairwise
        (fun a b : Query => ∀ t : Int, ¬ ((a.from_ < t ∧ t ≤ a.to_) ∧ (b.from_ < t ∧ t ≤ b.to_)))
        ws ∧
      ∀ t : Int, start_month Month_sec now * Month_sec < t → t ≤ (month + 1) * Month_sec →
        ∃ q ∈ ws, q.from_ < t ∧ t ≤ q.to_ := by
  obtain ⟨hS, hE⟩ := month_bounds Month_sec now hM hnow hmax
  have hd := day_sec_eq
  have hS0 : 0 ≤ start_month Month_sec now := by
    rw [hS]
    exact Int.ediv_nonneg (by omega) (le_of_lt hM)
  have hE0 : 0 ≤ end_month Month_sec now := le_trans hS0 (le_trans hlo hhi)
  have hEM : end_month Month_sec now * Month_sec ≤ now - 1 := by
    rw [hE]
    exact Int.ediv_mul_le _ (ne_of_gt hM)
  have hEle : end_month Month_sec now ≤ end_month Month_sec now * Month_sec :=
    le_mul_of_one_le_right hE0 (by omega)
  refine ⟨?_, ?_, ?_⟩
  · rw [hS, hd]
    exact ⟨Int.ediv_mul_le _ (ne_of_gt hM), Int.lt_ediv_add_one_mul_self _ hM⟩
  · rw [hE]
    exact ⟨Int.ediv_mul_le _ (ne_of_gt hM), Int.lt_ediv_add_one_mul_self _ hM⟩
  · obtain ⟨ws, hws, hmem, hhead, hchain, hpair, hcover⟩ :=
      monthQueries_spec Id Month_sec now month hM hnow hmax hlo hhi
    obtain ⟨qs, hqs, _, hfilter⟩ := monthLoop_spec Id Month_sec now
      ((end_month Month_sec now - start_month Month_sec now).toNat + 1)
      (start_month Month_sec now)
      (fun mo h1 h2 => by
        obtain ⟨w, hw, hm, _⟩ := monthQueries_spec Id Month_sec now mo hM hnow hmax h1 h2
        exact ⟨w, hw, fun q hq => (hm q hq).2.1⟩)
      (by omega) (by rw [hd] at hmax; omega)
      (by
        have h := Int.self_le_toNat (end_month Month_sec now - start_month Month_sec now)
        push_cast
        omega)
    refine ⟨ws, ?_, fun q hq => ⟨(hmem q hq).1, (hmem q hq).2.2.2.2⟩, hhead, hchain, ?_, hcover⟩
    · unfold bucketQueries processMetric
      rw [hqs, Option.map_some', hfilter month ws hlo hhi hws]
    · refine List.Pairwise.imp ?_ hpair
      intro a b hab t ht
      have ha := ht.1.2
      have hb := ht.2.1
      omega

/-- C10 amended, at a present-day clock, a bucket of 28 days and the third
of the four buckets in range. -/
theorem processMetric_windows_witness :
    (0 : Int) < 2419200 ∧ 68 * day_sec ≤ exNow ∧
    exNow + 2419200 + day_sec < 9223372036854775808 ∧
    start_month 2419200 exNow ≤ 619 ∧ 619 ≤ end_month 2419200 exNow ∧
    ((start_month 2419200 exNow * 2419200 ≤ exNow - 68 * day_sec ∧
      exNow - 68 * day_sec < (start_month 2419200 exNow + 1) * 2419200) ∧
    (end_month 2419200 exNow * 2419200 ≤ exNow - 1 ∧
      exNow - 1 < (end_month 2419200 exNow + 1) * 2419200) ∧
    ∃ ws, bucketQueries "a" 2419200 exNow 619 = some ws ∧
      (∀ q ∈ ws, q.row_key = "a" ++ "_" ++ toString (619 : Int) ∧ q.to_ = q.from_ + 86400) ∧
      (∃ q, ws.head? = some q ∧ q.from_ = start_month 2419200 exNow * 2419200) ∧
      List.Chain' (fun a b : Query => b.from_ = a.to_) ws ∧
      List.Pairwise
        (fun a b : Query => ∀ t : Int, ¬ ((a.from_ < t ∧ t ≤ a.to_) ∧ (b.from_ < t ∧ t ≤ b.to_)))
        ws ∧
      ∀ t : Int, start_month 2419200 exNow * 2419200 < t → t ≤ (619 + 1) * 2419200 →
        ∃ q ∈ ws, q.from_ < t ∧ t ≤ q.to_) :=
  ⟨by decide, by decide, by decide, by decide, by decide,
    processMetric_windows "a" 2419200 exNow 619 (by decide) (by decide) (by decide)
      (by decide) (by decide)⟩

end Migration
